import Mathlib

/-!
Shallow embedding of the schema/validation layer of the wicked-waifus-data
crate: the three table record types (PhantomItemData, PhantomCustomizeItemData,
SummonCfgData) and the nested MainProp record, together with the derived
deserializer semantics that their attributes induce.

Modelling choices, each traced to the source:
- Every struct carries the rename-all PascalCase attribute, so the raw key of a
  field is the PascalCase rendering of its snake_case name (toPascal below,
  following the rename rule: drop underscores, capitalize each segment head).
- The three table structs gate deny-unknown-fields behind the
  strict_json_fields feature; MainProp does not carry that attribute at all.
  A Schema records this as denyUnknownWhenStrict; nested record kinds carry
  their own flag (false for MainProp).
- Fields gated by the strict_json_fields feature exist only in the strict
  build; a FieldSpec records this as strictOnly, and activeFields drops those
  fields entirely in the lenient profile.
- The derived map visitor processes raw entries in input order: a key matching
  a declared field is decoded into its slot (a second occurrence is a
  duplicate-field error), a key matching no declared field is an unknown-field
  error when deny-unknown-fields is active and is skipped otherwise; after the
  scan, the first declared field (in declaration order) without a slot value
  yields a missing-field error, reported under its raw key.
- Raw numeric scalars are carried as integers: no claim depends on fractional
  float values, only on arity and on integer range checks (i32 for most
  identifiers, i64 for buff identifier list elements, range checked exactly as
  the integer Deserialize impls do). Float-typed slots accept any numeric raw
  value.
- Modelled from the spec: the deserializer engine itself (the serde derive
  expansion) is not part of this repository; its error paths for nested
  records are modelled from the spec sentence that a nested failure propagates
  as a failure of the outer field with the field path preserved
  (pushPath below, giving paths such as MainProp.RandGroupId).
-/

namespace WW

/-- The rename-all PascalCase rule applied to a snake_case field name:
underscores are dropped and the character after each dropped underscore
(and the first character) is upper-cased. -/
def toPascalAux : Bool → List Char → List Char
  | _, [] => []
  | cap, c :: cs =>
    if c = '_' then toPascalAux true cs
    else (if cap then c.toUpper else c) :: toPascalAux false cs

/-- Raw key of a field: PascalCase rendering of its snake_case name. -/
def toPascal (s : String) : String := ⟨toPascalAux true s.data⟩

/-- Inverse direction of the name mapping: each upper-case character is
lower-cased, with an underscore inserted before it except at the front. -/
def toSnakeAux : Bool → List Char → List Char
  | _, [] => []
  | first, c :: cs =>
    if c.isUpper then
      (if first then [c.toLower] else ['_', c.toLower]) ++ toSnakeAux false cs
    else c :: toSnakeAux false cs

/-- PascalCase raw key back to a snake_case field name. -/
def toSnake (s : String) : String := ⟨toSnakeAux true s.data⟩

/-- Raw structured input values: numeric scalar, text, boolean, ordered list,
or unordered mapping given as an association list in input order. -/
inductive Raw where
  | num (n : Int)
  | str (s : String)
  | bool (b : Bool)
  | arr (xs : List Raw)
  | obj (entries : List (String × Raw))

/-- Primitive value kinds of the schemas. -/
inductive PrimKind where
  | i32
  | i64
  | f32
  | str
  | bool
deriving DecidableEq

/-- Field value kinds: primitive, variable-length list of a primitive,
fixed-arity 3-component float tuple, or nested record (with the nested
record's own field list and its own deny-unknown-fields flag). -/
inductive Kind where
  | prim (p : PrimKind)
  | listOf (p : PrimKind)
  | tuple3f32
  | nested (sub : List (String × PrimKind)) (deny : Bool)
deriving DecidableEq

/-- One declared field: snake_case name, value kind, and whether the field
exists only in the strict (build-complete) profile. -/
structure FieldSpec where
  name : String
  kind : Kind
  strictOnly : Bool
deriving DecidableEq

/-- A table schema: its fields in declaration order, and whether the struct
carries the feature-gated deny-unknown-fields attribute. -/
structure Schema where
  fields : List FieldSpec
  denyUnknownWhenStrict : Bool

/-- Decoded values. -/
inductive Value where
  | vInt (n : Int)
  | vF32 (n : Int)
  | vStr (s : String)
  | vBool (b : Bool)
  | vList (xs : List Value)
  | vRec (fields : List (String × Value))

/-- Decode failures, each carrying the offending field path. -/
inductive Err where
  | missingField (path : String)
  | unknownField (path : String)
  | typeMismatch (path : String)
  | duplicateField (path : String)
deriving DecidableEq

/-- Prefix an error path with the name of the enclosing field. -/
def pushPath (outer : String) : Err → Err
  | .missingField p => .missingField (outer ++ "." ++ p)
  | .unknownField p => .unknownField (outer ++ "." ++ p)
  | .typeMismatch p => .typeMismatch (outer ++ "." ++ p)
  | .duplicateField p => .duplicateField (outer ++ "." ++ p)

def i32Min : Int := -(2 ^ 31)
def i32Max : Int := 2 ^ 31 - 1
def i64Min : Int := -(2 ^ 63)
def i64Max : Int := 2 ^ 63 - 1

/-- Decode one primitive value: integers are range-checked against their
declared width, floats accept any numeric raw value, text and booleans
require the matching raw shape; no coercion between shapes is performed. -/
def decodePrim (path : String) (p : PrimKind) (v : Raw) : Except Err Value :=
  match p, v with
  | .i32, .num n =>
    if i32Min ≤ n ∧ n ≤ i32Max then .ok (.vInt n) else .error (.typeMismatch path)
  | .i64, .num n =>
    if i64Min ≤ n ∧ n ≤ i64Max then .ok (.vInt n) else .error (.typeMismatch path)
  | .f32, .num n => .ok (.vF32 n)
  | .str, .str s => .ok (.vStr s)
  | .bool, .bool b => .ok (.vBool b)
  | _, _ => .error (.typeMismatch path)

/-- Decode a list of primitive values in input order, failing on the first
element that does not decode. -/
def decodePrims (path : String) (p : PrimKind) : List Raw → Except Err (List Value)
  | [] => .ok []
  | v :: rest =>
    match decodePrim path p v with
    | .error e => .error e
    | .ok val =>
      match decodePrims path p rest with
      | .error e => .error e
      | .ok vals => .ok (val :: vals)

/-- Decode a non-nested field value: primitives, variable-length lists
(any length, including zero), and the exact-arity 3-float tuple. -/
def decodeBase (path : String) (k : Kind) (v : Raw) : Except Err Value :=
  match k with
  | .prim p => decodePrim path p v
  | .listOf p =>
    match v with
    | .arr xs =>
      match decodePrims path p xs with
      | .error e => .error e
      | .ok vals => .ok (.vList vals)
    | _ => .error (.typeMismatch path)
  | .tuple3f32 =>
    match v with
    | .arr xs =>
      if xs.length = 3 then
        match decodePrims path .f32 xs with
        | .error e => .error e
        | .ok vals => .ok (.vList vals)
      else .error (.typeMismatch path)
    | _ => .error (.typeMismatch path)
  | .nested _ _ => .error (.typeMismatch path)

/-- Raw key under which a declared field is matched. -/
def rawKey (f : FieldSpec) : String := toPascal f.name

/-- Map-visitor loop of the derived deserializer, abstracted over the value
decoder: entries are processed in input order; a matched key whose slot is
already filled is a duplicate-field error, otherwise its value is decoded;
an unmatched key is an unknown-field error when denyActive, else skipped. -/
def processWith (dec : String → Kind → Raw → Except Err Value) (denyActive : Bool)
    (active : List FieldSpec) :
    List (String × Raw) → List (String × Value) → Except Err (List (String × Value))
  | [], acc => .ok acc
  | (k, v) :: rest, acc =>
    match active.find? (fun f => rawKey f == k) with
    | some f =>
      if acc.any (fun p => p.1 == f.name) then .error (.duplicateField k)
      else
        match dec k f.kind v with
        | .error e => .error e
        | .ok val => processWith dec denyActive active rest (acc ++ [(f.name, val)])
    | none =>
      if denyActive then .error (.unknownField k)
      else processWith dec denyActive active rest acc

/-- After the scan: read the slots back in declaration order; the first
declared field without a slot value is reported missing under its raw key. -/
def finishRecord : List FieldSpec → List (String × Value) → Except Err (List (String × Value))
  | [], _ => .ok []
  | f :: rest, acc =>
    match acc.find? (fun p => p.1 == f.name) with
    | none => .error (.missingField (rawKey f))
    | some p =>
      match finishRecord rest acc with
      | .error e => .error e
      | .ok r => .ok ((f.name, p.2) :: r)

/-- Field specifications of a nested record: all its fields are primitive
and exist in both profiles. -/
def subSpecs (sub : List (String × PrimKind)) : List FieldSpec :=
  sub.map (fun p => ⟨p.1, .prim p.2, false⟩)

/-- Run the map-visitor loop of a nested record: scan the raw entries against
the nested field list with the given unknown-field rejection flag, then read
the slots back in declaration order. -/
def decodeSubRecord (denyActive : Bool) (sub : List (String × PrimKind))
    (entries : List (String × Raw)) : Except Err (List (String × Value)) :=
  match processWith decodeBase denyActive (subSpecs sub) entries [] with
  | .error e => .error e
  | .ok acc => finishRecord (subSpecs sub) acc

/-- Decode one field value; nested record fields run the map-visitor loop of
the nested record under the same mode, with their own deny-unknown-fields
flag, and a failure inside is reported under the outer field with the nested
path preserved. -/
def decodeValue (strict : Bool) (path : String) (k : Kind) (v : Raw) : Except Err Value :=
  match k with
  | .nested sub deny =>
    match v with
    | .obj entries =>
      match decodeSubRecord (strict && deny) sub entries with
      | .error e => .error (pushPath path e)
      | .ok r => .ok (.vRec r)
    | _ => .error (.typeMismatch path)
  | k => decodeBase path k v

/-- Fields that exist in the chosen profile: all of them in the strict
(build-complete) profile; the strict-only fields are elided entirely from
the record type in the lenient (build-minimal) profile. -/
def activeFields (strict : Bool) (s : Schema) : List FieldSpec :=
  if strict then s.fields else s.fields.filter (fun f => !f.strictOnly)

/-- Decode a raw record against a schema, with the unknown-field rejection
flag supplied explicitly. -/
def decodeRecordWith (strict denyActive : Bool) (s : Schema) : Raw → Except Err (List (String × Value))
  | .obj entries =>
    match processWith (decodeValue strict) denyActive (activeFields strict s) entries [] with
    | .error e => .error e
    | .ok acc => finishRecord (activeFields strict s) acc
  | _ => .error (.typeMismatch "")

/-- Decode a raw record against a schema in the given mode: unknown-field
rejection is active exactly when the mode is strict and the struct carries
the feature-gated deny-unknown-fields attribute. -/
def decodeRecord (strict : Bool) (s : Schema) (v : Raw) : Except Err (List (String × Value)) :=
  decodeRecordWith strict (strict && s.denyUnknownWhenStrict) s v

/-- Boolean success test on a decode result. -/
def isOkE : Except Err (List (String × Value)) → Bool
  | .ok _ => true
  | .error _ => false

/-- Nested MainProp record: rand_group_id and rand_num, both i32; the struct
does not carry the deny-unknown-fields attribute. -/
def mainPropFields : List (String × PrimKind) :=
  [("rand_group_id", .i32), ("rand_num", .i32)]

/-- PhantomItemData: fields in declaration order, strictOnly marking the
fields gated by the strict_json_fields feature; the struct carries the
feature-gated deny-unknown-fields attribute. -/
def phantomItemSchema : Schema where
  denyUnknownWhenStrict := true
  fields :=
    [ ⟨"item_id", .prim .i32, false⟩
    , ⟨"monster_id", .prim .i32, false⟩
    , ⟨"monster_name", .prim .str, true⟩
    , ⟨"element_type", .listOf .i32, false⟩
    , ⟨"main_prop", .nested mainPropFields false, false⟩
    , ⟨"level_up_group_id", .prim .i32, false⟩
    , ⟨"skill_id", .prim .i32, false⟩
    , ⟨"calabash_buffs", .listOf .i32, false⟩
    , ⟨"rarity", .prim .i32, false⟩
    , ⟨"mesh_id", .prim .i32, false⟩
    , ⟨"zoom", .tuple3f32, false⟩
    , ⟨"location", .tuple3f32, false⟩
    , ⟨"rotator", .tuple3f32, false⟩
    , ⟨"stand_anim", .prim .str, true⟩
    , ⟨"type_description", .prim .str, true⟩
    , ⟨"attributes_description", .prim .str, true⟩
    , ⟨"icon", .prim .str, true⟩
    , ⟨"icon_middle", .prim .str, true⟩
    , ⟨"icon_small", .prim .str, true⟩
    , ⟨"mesh", .prim .str, true⟩
    , ⟨"quality_id", .prim .i32, false⟩
    , ⟨"max_capcity", .prim .i32, false⟩
    , ⟨"item_access", .listOf .i32, false⟩
    , ⟨"obtained_show", .prim .i32, false⟩
    , ⟨"obtained_show_description", .prim .str, true⟩
    , ⟨"num_limit", .prim .i32, false⟩
    , ⟨"show_in_bag", .prim .bool, false⟩
    , ⟨"sort_index", .prim .i32, false⟩
    , ⟨"skill_icon", .prim .str, true⟩
    , ⟨"destructible", .prim .bool, false⟩
    , ⟨"red_dot_disable_rule", .prim .i32, false⟩
    , ⟨"fetter_group", .listOf .i32, false⟩
    , ⟨"phantom_type", .prim .i32, false⟩
    , ⟨"parent_monster_id", .prim .i32, false⟩ ]

/-- PhantomCustomizeItemData: three always i32 fields; the struct carries the
feature-gated deny-unknown-fields attribute. -/
def phantomCustomizeItemSchema : Schema where
  denyUnknownWhenStrict := true
  fields :=
    [ ⟨"item_id", .prim .i32, false⟩
    , ⟨"phantom_id", .prim .i32, false⟩
    , ⟨"skin_item_id", .prim .i32, false⟩ ]

/-- SummonCfgData: id (i32), blueprint_type (text), name (text, strict-only),
born_buff_id (list of i64); the struct carries the feature-gated
deny-unknown-fields attribute. -/
def summonCfgSchema : Schema where
  denyUnknownWhenStrict := true
  fields :=
    [ ⟨"id", .prim .i32, false⟩
    , ⟨"blueprint_type", .prim .str, false⟩
    , ⟨"name", .prim .str, true⟩
    , ⟨"born_buff_id", .listOf .i64, false⟩ ]

/-- All snake_case field names declared across the three table schemas and
the nested MainProp schema. -/
def allFieldNames : List String :=
  (phantomItemSchema.fields ++ phantomCustomizeItemSchema.fields
      ++ summonCfgSchema.fields).map FieldSpec.name
    ++ mainPropFields.map Prod.fst

/-- A complete, valid raw PhantomItemData record: every field of the strict
(build-complete) profile present and well-typed, in declaration order. -/
def phantomItemRawFull : List (String × Raw) :=
  [ ("ItemId", .num 1)
  , ("MonsterId", .num 10)
  , ("MonsterName", .str "m")
  , ("ElementType", .arr [.num 1])
  , ("MainProp", .obj [("RandGroupId", .num 5), ("RandNum", .num 3)])
  , ("LevelUpGroupId", .num 1)
  , ("SkillId", .num 2)
  , ("CalabashBuffs", .arr [])
  , ("Rarity", .num 4)
  , ("MeshId", .num 7)
  , ("Zoom", .arr [.num 1, .num 1, .num 1])
  , ("Location", .arr [.num 0, .num 0, .num 0])
  , ("Rotator", .arr [.num 0, .num 0, .num 0])
  , ("StandAnim", .str "a")
  , ("TypeDescription", .str "t")
  , ("AttributesDescription", .str "d")
  , ("Icon", .str "i")
  , ("IconMiddle", .str "im")
  , ("IconSmall", .str "is")
  , ("Mesh", .str "me")
  , ("QualityId", .num 1)
  , ("MaxCapcity", .num 5)
  , ("ItemAccess", .arr [.num 1, .num 2])
  , ("ObtainedShow", .num 1)
  , ("ObtainedShowDescription", .str "o")
  , ("NumLimit", .num 99)
  , ("ShowInBag", .bool true)
  , ("SortIndex", .num 3)
  , ("SkillIcon", .str "si")
  , ("Destructible", .bool false)
  , ("RedDotDisableRule", .num 0)
  , ("FetterGroup", .arr [.num 1])
  , ("PhantomType", .num 2)
  , ("ParentMonsterId", .num 10) ]

/-- The same record with the strict-only fields omitted: exactly the always
fields, all well-typed. -/
def phantomItemRawMinimal : List (String × Raw) :=
  phantomItemRawFull.filter (fun e =>
    ((activeFields false phantomItemSchema).find? (fun f => rawKey f == e.1)).isSome)

/-- The complete record with an extra undeclared key inside the MainProp
sub-mapping. -/
def phantomItemRawMainPropExtra : List (String × Raw) :=
  phantomItemRawFull.map (fun e =>
    if e.1 == "MainProp" then
      ("MainProp", .obj [("RandGroupId", .num 5), ("RandNum", .num 3), ("Bogus", .num 1)])
    else e)

/-- The complete record with the misspelled raw key MaxCapcity replaced by
the correctly spelled MaxCapacity. -/
def phantomItemRawMaxCapacity : List (String × Raw) :=
  phantomItemRawFull.map (fun e =>
    if e.1 == "MaxCapcity" then ("MaxCapacity", .num 5) else e)

/-- The complete record with the always field ItemId removed. -/
def phantomItemRawNoItemId : List (String × Raw) :=
  phantomItemRawFull.filter (fun e => !(e.1 == "ItemId"))

/-- The complete record with the numeric always field ItemId carrying the
numeric-looking text value. -/
def phantomItemRawItemIdText : List (String × Raw) :=
  phantomItemRawFull.map (fun e =>
    if e.1 == "ItemId" then ("ItemId", .str "42") else e)

/-- A complete, valid raw SummonCfgData record. -/
def summonCfgRawFull : List (String × Raw) :=
  [ ("Id", .num 1)
  , ("BlueprintType", .str "b")
  , ("Name", .str "n")
  , ("BornBuffId", .arr [.num 100, .num 200]) ]

/-- A SummonCfgData record with an extra undeclared field. -/
def summonCfgRawExtra : List (String × Raw) :=
  [ ("Id", .num 1)
  , ("BlueprintType", .str "b")
  , ("Name", .str "n")
  , ("BornBuffId", .arr [.num 100, .num 200])
  , ("Extra", .num 0) ]

/-- A SummonCfgData record with only the always fields and an empty buff
list. -/
def summonCfgRawMinimalEmpty : List (String × Raw) :=
  [ ("Id", .num 1)
  , ("BlueprintType", .str "b")
  , ("BornBuffId", .arr []) ]

/-- A complete SummonCfgData record missing the always field Id. -/
def summonCfgRawNoId : List (String × Raw) :=
  summonCfgRawFull.filter (fun e => !(e.1 == "Id"))

/-- A complete SummonCfgData record missing the always field BlueprintType. -/
def summonCfgRawNoBlueprintType : List (String × Raw) :=
  summonCfgRawFull.filter (fun e => !(e.1 == "BlueprintType"))

/-- A valid raw PhantomCustomizeItemData record. -/
def customizeRawFull : List (String × Raw) :=
  [("ItemId", .num 1), ("PhantomId", .num 2), ("SkinItemId", .num 3)]

/-- The complete record with the tuple field Zoom carrying only two
elements. -/
def phantomItemRawZoomTwo : List (String × Raw) :=
  phantomItemRawFull.map (fun e =>
    if e.1 == "Zoom" then ("Zoom", .arr [.num 1, .num 1]) else e)

/-- The complete record with the numeric field Rarity carrying a text
value. -/
def phantomItemRawRarityText : List (String × Raw) :=
  phantomItemRawFull.map (fun e =>
    if e.1 == "Rarity" then ("Rarity", .str "4") else e)

/-- A kind whose value decoding cannot depend on the mode: every kind other
than a nested record with its own deny-unknown-fields attribute. -/
def kindModeFree : Kind → Bool
  | .nested _ deny => !deny
  | _ => true

/-- With unknown-field rejection off, entries whose key matches no declared
field are skipped, so dropping them from the input does not change the result
of the visitor loop. -/
theorem processWith_filter (dec : String → Kind → Raw → Except Err Value)
    (active : List FieldSpec) (q : String × Raw → Bool)
    (hq : ∀ e, q e = false → active.find? (fun f => rawKey f == e.1) = none) :
    ∀ (entries : List (String × Raw)) (acc : List (String × Value)),
      processWith dec false active entries acc
        = processWith dec false active (entries.filter q) acc := by
  intro entries
  induction entries with
  | nil => intro acc; rfl
  | cons e rest ih =>
    intro acc
    obtain ⟨k, v⟩ := e
    cases hqe : q (k, v) with
    | false =>
      rw [List.filter_cons, if_neg (by simp [hqe])]
      simp only [processWith]
      rw [hq (k, v) hqe]
      simpa using ih acc
    | true =>
      rw [List.filter_cons, if_pos (by simp [hqe])]
      simp only [processWith]
      cases hfind : active.find? (fun f => rawKey f == k) with
      | none => simpa using ih acc
      | some f =>
        by_cases hdup : acc.any (fun p => p.1 == f.name)
        · simp [hdup]
        · simp only [hdup, if_false, Bool.false_eq_true]
          cases hdec : dec k f.kind v with
          | error e => rfl
          | ok val => exact ih (acc ++ [(f.name, val)])

/-- If the visitor loop succeeds with unknown-field rejection off and some
entry key matches no declared field, then running it with rejection on fails
with an unknown-field error naming such a key. -/
theorem processWith_unknown (dec : String → Kind → Raw → Except Err Value)
    (active : List FieldSpec) :
    ∀ (entries : List (String × Raw)) (acc acc' : List (String × Value)),
      processWith dec false active entries acc = .ok acc' →
      (∃ e ∈ entries, active.find? (fun f => rawKey f == e.1) = none) →
      ∃ k, processWith dec true active entries acc = .error (.unknownField k)
        ∧ (∃ v, (k, v) ∈ entries)
        ∧ active.find? (fun f => rawKey f == k) = none := by
  intro entries
  induction entries with
  | nil =>
    intro acc acc' _ hex
    obtain ⟨e, he, _⟩ := hex
    exact absurd he (List.not_mem_nil e)
  | cons e rest ih =>
    intro acc acc' hok hex
    obtain ⟨k, v⟩ := e
    cases hfind : active.find? (fun f => rawKey f == k) with
    | none =>
      refine ⟨k, ?_, ⟨v, List.mem_cons_self _ _⟩, hfind⟩
      simp [processWith, hfind]
    | some f =>
      simp only [processWith, hfind] at hok ⊢
      by_cases hdup : acc.any (fun p => p.1 == f.name)
      · simp [hdup] at hok
      · simp only [hdup, if_false, Bool.false_eq_true] at hok ⊢
        cases hdec : dec k f.kind v with
        | error e0 => rw [hdec] at hok; exact absurd hok (by simp)
        | ok val =>
          rw [hdec] at hok
          have hex' : ∃ e ∈ rest, active.find? (fun f => rawKey f == e.1) = none := by
            obtain ⟨e', he', hfe'⟩ := hex
            rcases List.mem_cons.mp he' with rfl | hmem
            · rw [hfe'] at hfind; exact absurd hfind (by simp)
            · exact ⟨e', hmem, hfe'⟩
          obtain ⟨k', hk', hv', hf'⟩ := ih (acc ++ [(f.name, val)]) acc' hok hex'
          obtain ⟨v', hv'⟩ := hv'
          exact ⟨k', hk', ⟨v', List.mem_cons_of_mem _ hv'⟩, hf'⟩

/-- Every slot filled by a successful visitor run was either filled before the
run or stems from an input entry keyed by the raw key of a declared field of
the same name. -/
theorem processWith_mem (dec : String → Kind → Raw → Except Err Value)
    (d : Bool) (active : List FieldSpec) :
    ∀ (entries : List (String × Raw)) (acc acc' : List (String × Value)),
      processWith dec d active entries acc = .ok acc' →
      ∀ p ∈ acc', p ∈ acc ∨ ∃ f v, f ∈ active ∧ f.name = p.1 ∧ (rawKey f, v) ∈ entries := by
  intro entries
  induction entries with
  | nil =>
    intro acc acc' hok p hp
    simp only [processWith] at hok
    cases hok
    exact Or.inl hp
  | cons e rest ih =>
    intro acc acc' hok p hp
    obtain ⟨k, v⟩ := e
    simp only [processWith] at hok
    cases hfind : active.find? (fun f => rawKey f == k) with
    | none =>
      rw [hfind] at hok
      cases d with
      | true => simp at hok
      | false =>
        simp only [if_false, Bool.false_eq_true] at hok
        rcases ih acc acc' hok p hp with hl | ⟨f, w, hf, hn, hm⟩
        · exact Or.inl hl
        · exact Or.inr ⟨f, w, hf, hn, List.mem_cons_of_mem _ hm⟩
    | some f =>
      rw [hfind] at hok
      by_cases hdup : acc.any (fun p => p.1 == f.name)
      · simp [hdup] at hok
      · simp only [hdup, if_false, Bool.false_eq_true] at hok
        cases hdec : dec k f.kind v with
        | error e0 => rw [hdec] at hok; exact absurd hok (by simp)
        | ok val =>
          rw [hdec] at hok
          rcases ih (acc ++ [(f.name, val)]) acc' hok p hp with hl | ⟨f', w, hf', hn', hm'⟩
          · rcases List.mem_append.mp hl with hacc | hone
            · exact Or.inl hacc
            · have hpe : p = (f.name, val) := by simpa using hone
              have hkey : rawKey f = k := by
                have := List.find?_some hfind
                exact eq_of_beq this
              refine Or.inr ⟨f, v, List.mem_of_find?_eq_some hfind, ?_, ?_⟩
              · rw [hpe]
              · rw [hkey]; exact List.mem_cons_self _ _
          · exact Or.inr ⟨f', w, hf', hn', List.mem_cons_of_mem _ hm'⟩

/-- A successful visitor run with unknown-field rejection on never met an
undeclared key. -/
theorem processWith_ok_declared (dec : String → Kind → Raw → Except Err Value)
    (active : List FieldSpec) :
    ∀ (entries : List (String × Raw)) (acc acc' : List (String × Value)),
      processWith dec true active entries acc = .ok acc' →
      ∀ e ∈ entries, (active.find? (fun f => rawKey f == e.1)).isSome = true := by
  intro entries
  induction entries with
  | nil => intro acc acc' _ e he; exact absurd he (List.not_mem_nil e)
  | cons e0 rest ih =>
    intro acc acc' hok e he
    obtain ⟨k, v⟩ := e0
    simp only [processWith] at hok
    cases hfind : active.find? (fun f => rawKey f == k) with
    | none => rw [hfind] at hok; simp at hok
    | some f =>
      rw [hfind] at hok
      by_cases hdup : acc.any (fun p => p.1 == f.name)
      · simp [hdup] at hok
      · simp only [hdup, if_false, Bool.false_eq_true] at hok
        cases hdec : dec k f.kind v with
        | error e1 => rw [hdec] at hok; exact absurd hok (by simp)
        | ok val =>
          rw [hdec] at hok
          rcases List.mem_cons.mp he with rfl | hmem
          · simp [hfind]
          · exact ih (acc ++ [(f.name, val)]) acc' hok e hmem

/-- When every entry key matches a declared field and the two value decoders
agree on the kinds of the declared fields, the visitor loop gives the same
result for both decoders regardless of the rejection flags. -/
theorem processWith_congr (dec₁ dec₂ : String → Kind → Raw → Except Err Value)
    (d₁ d₂ : Bool) (active : List FieldSpec)
    (hdec : ∀ f ∈ active, ∀ p v, dec₁ p f.kind v = dec₂ p f.kind v) :
    ∀ (entries : List (String × Raw)) (acc : List (String × Value)),
      (∀ e ∈ entries, (active.find? (fun f => rawKey f == e.1)).isSome = true) →
      processWith dec₁ d₁ active entries acc = processWith dec₂ d₂ active entries acc := by
  intro entries
  induction entries with
  | nil => intro acc _; rfl
  | cons e rest ih =>
    intro acc hdecl
    obtain ⟨k, v⟩ := e
    simp only [processWith]
    cases hfind : active.find? (fun f => rawKey f == k) with
    | none =>
      have := hdecl (k, v) (List.mem_cons_self _ _)
      rw [hfind] at this
      simp at this
    | some f =>
      by_cases hdup : acc.any (fun p => p.1 == f.name)
      · simp [hdup]
      · simp only [hdup, if_false, Bool.false_eq_true]
        rw [hdec f (List.mem_of_find?_eq_some hfind) k v]
        cases dec₂ k f.kind v with
        | error e0 => rfl
        | ok val => exact ih (acc ++ [(f.name, val)]) (fun e he => hdecl e (List.mem_cons_of_mem _ he))

/-- The decoded record lists exactly the active fields, in declaration
order. -/
theorem finishRecord_names (active : List FieldSpec) :
    ∀ (acc r : List (String × Value)), finishRecord active acc = .ok r →
      r.map Prod.fst = active.map FieldSpec.name := by
  induction active with
  | nil => intro acc r h; simp only [finishRecord] at h; cases h; rfl
  | cons f rest ih =>
    intro acc r h
    simp only [finishRecord] at h
    cases hfind : acc.find? (fun p => p.1 == f.name) with
    | none => rw [hfind] at h; exact absurd h (by simp)
    | some p =>
      rw [hfind] at h
      cases hrec : finishRecord rest acc with
      | error e => rw [hrec] at h; exact absurd h (by simp)
      | ok r' =>
        rw [hrec] at h
        cases h
        simpa using ih acc r' hrec

/-- A successfully finished record has a slot value for every active field. -/
theorem finishRecord_found (active : List FieldSpec) :
    ∀ (acc r : List (String × Value)), finishRecord active acc = .ok r →
      ∀ f ∈ active, ∃ p, acc.find? (fun q => q.1 == f.name) = some p := by
  induction active with
  | nil => intro acc r _ f hf; exact absurd hf (List.not_mem_nil f)
  | cons f0 rest ih =>
    intro acc r h f hf
    simp only [finishRecord] at h
    cases hfind : acc.find? (fun p => p.1 == f0.name) with
    | none => rw [hfind] at h; exact absurd h (by simp)
    | some p =>
      rw [hfind] at h
      cases hrec : finishRecord rest acc with
      | error e => rw [hrec] at h; exact absurd h (by simp)
      | ok r' =>
        rcases List.mem_cons.mp hf with rfl | hmem
        · exact ⟨p, hfind⟩
        · exact ih acc r' hrec f hmem

/-- A successful decode names exactly the active fields. -/
theorem decodeRecord_ok_names (m : Bool) (s : Schema)
    (entries : List (String × Raw)) (r : List (String × Value))
    (h : decodeRecord m s (.obj entries) = .ok r) :
    r.map Prod.fst = (activeFields m s).map FieldSpec.name := by
  simp only [decodeRecord, decodeRecordWith] at h
  cases hP : processWith (decodeValue m) (m && s.denyUnknownWhenStrict)
      (activeFields m s) entries [] with
  | error e => rw [hP] at h; exact absurd h (by simp)
  | ok acc => rw [hP] at h; exact finishRecord_names (activeFields m s) acc r h

/-- A successful decode requires the raw key of every active field to occur
among the input entries: no default value is ever substituted. -/
theorem decodeRecord_ok_key_present (m : Bool) (s : Schema)
    (entries : List (String × Raw)) (r : List (String × Value))
    (h : decodeRecord m s (.obj entries) = .ok r) :
    ∀ f ∈ activeFields m s, ∃ v, (rawKey f, v) ∈ entries := by
  intro f hf
  simp only [decodeRecord, decodeRecordWith] at h
  cases hP : processWith (decodeValue m) (m && s.denyUnknownWhenStrict)
      (activeFields m s) entries [] with
  | error e => rw [hP] at h; exact absurd h (by simp)
  | ok acc =>
    rw [hP] at h
    obtain ⟨p, hfind⟩ := finishRecord_found (activeFields m s) acc r h f hf
    have hpacc : p ∈ acc := List.mem_of_find?_eq_some hfind
    have hpname : p.1 = f.name := by
      have h1 := List.find?_some hfind
      simpa using h1
    rcases processWith_mem (decodeValue m) (m && s.denyUnknownWhenStrict)
        (activeFields m s) entries [] acc hP p hpacc with hl | ⟨f', v, _, hn', hm'⟩
    · exact absurd hl (List.not_mem_nil p)
    · have hkey : rawKey f' = rawKey f := by
        unfold rawKey
        rw [hn', hpname]
      rw [hkey] at hm'
      exact ⟨v, hm'⟩

/-- Element-wise list decoding preserves length. -/
theorem decodePrims_length (path : String) (p : PrimKind) :
    ∀ (xs : List Raw) (vals : List Value),
      decodePrims path p xs = .ok vals → vals.length = xs.length := by
  intro xs
  induction xs with
  | nil => intro vals h; simp only [decodePrims] at h; cases h; rfl
  | cons v rest ih =>
    intro vals h
    simp only [decodePrims] at h
    cases h1 : decodePrim path p v with
    | error e => rw [h1] at h; exact absurd h (by simp)
    | ok val =>
      rw [h1] at h
      cases h2 : decodePrims path p rest with
      | error e => rw [h2] at h; exact absurd h (by simp)
      | ok vals' =>
        rw [h2] at h
        cases h
        simpa using ih vals' h2

/-- Numeric raw elements within the 64-bit range decode element-wise, in
input order. -/
theorem decodePrims_i64_map (path : String) :
    ∀ (ns : List Int), (∀ n ∈ ns, i64Min ≤ n ∧ n ≤ i64Max) →
      decodePrims path .i64 (ns.map Raw.num) = .ok (ns.map Value.vInt) := by
  intro ns
  induction ns with
  | nil => intro _; rfl
  | cons n rest ih =>
    intro h
    simp only [List.map_cons, decodePrims, decodePrim]
    rw [if_pos (h n (List.mem_cons_self _ _))]
    rw [ih (fun n' hn' => h n' (List.mem_cons_of_mem _ hn'))]

/-- Numeric raw elements always decode at float kind, element-wise. -/
theorem decodePrims_f32_map (path : String) :
    ∀ (ns : List Int),
      decodePrims path .f32 (ns.map Raw.num) = .ok (ns.map Value.vF32) := by
  intro ns
  induction ns with
  | nil => rfl
  | cons n rest ih => simp only [List.map_cons, decodePrims, decodePrim]; rw [ih]

/-- C1: for a schema whose struct carries the feature-gated
deny-unknown-fields attribute, a raw record whose declared fields all decode
but which contains an entry with an undeclared key is rejected in strict mode
with an unknown-field error naming such a key; in lenient mode undeclared
entries are ignored: dropping them does not change the decode result. -/
theorem c1_unknown_fields :
    (∀ (s : Schema), s.denyUnknownWhenStrict = true →
      ∀ (entries : List (String × Raw)),
        isOkE (decodeRecordWith true false s (.obj entries)) = true →
        ∀ (k₀ : String) (v₀ : Raw), (k₀, v₀) ∈ entries →
          (activeFields true s).find? (fun f => rawKey f == k₀) = none →
          ∃ k, decodeRecord true s (.obj entries) = .error (.unknownField k)
            ∧ (∃ v, (k, v) ∈ entries)
            ∧ (activeFields true s).find? (fun f => rawKey f == k) = none)
  ∧ (∀ (s : Schema) (entries : List (String × Raw)),
      decodeRecord false s (.obj entries)
        = decodeRecord false s (.obj (entries.filter (fun e =>
            ((activeFields false s).find? (fun f => rawKey f == e.1)).isSome)))) := by
  constructor
  · intro s hs entries hok k₀ v₀ hmem hfind
    simp only [decodeRecordWith] at hok
    cases hP : processWith (decodeValue true) false (activeFields true s) entries [] with
    | error e => rw [hP] at hok; simp [isOkE] at hok
    | ok acc =>
      obtain ⟨k, hk, hkv, hkf⟩ := processWith_unknown (decodeValue true)
        (activeFields true s) entries [] acc hP ⟨(k₀, v₀), hmem, hfind⟩
      refine ⟨k, ?_, hkv, hkf⟩
      simp only [decodeRecord, hs, Bool.and_true, decodeRecordWith]
      rw [hk]
  · intro s entries
    have hq : ∀ e : String × Raw,
        (((activeFields false s).find? (fun f => rawKey f == e.1)).isSome) = false →
        (activeFields false s).find? (fun f => rawKey f == e.1) = none := by
      intro e he
      cases hfe : (activeFields false s).find? (fun f => rawKey f == e.1) with
      | none => rfl
      | some f => rw [hfe] at he; simp at he
    simp only [decodeRecord, Bool.false_and, decodeRecordWith]
    rw [processWith_filter (decodeValue false) (activeFields false s) _ hq entries []]

/-- C1 witness: a SummonCfgData record carrying the undeclared key Extra. -/
theorem c1_witness :
    (∃ k, decodeRecord true summonCfgSchema (.obj summonCfgRawExtra) = .error (.unknownField k)
      ∧ (∃ v, (k, v) ∈ summonCfgRawExtra)
      ∧ (activeFields true summonCfgSchema).find? (fun f => rawKey f == k) = none)
  ∧ decodeRecord false summonCfgSchema (.obj summonCfgRawExtra)
      = decodeRecord false summonCfgSchema (.obj (summonCfgRawExtra.filter (fun e =>
          ((activeFields false summonCfgSchema).find? (fun f => rawKey f == e.1)).isSome))) := by
  constructor
  · exact c1_unknown_fields.1 summonCfgSchema rfl summonCfgRawExtra rfl "Extra" (.num 0)
      (by simp [summonCfgRawExtra]) rfl
  · exact c1_unknown_fields.2 summonCfgSchema summonCfgRawExtra

/-- C2: in the lenient (build-minimal) profile the strict-only fields
(monster_name of PhantomItemData, name of SummonCfgData) are absent from the
record type itself, every successfully decoded lenient record has no slot for
them, and a raw record omitting them but supplying the always fields decodes
successfully; in the strict profile the same fields exist and a record
omitting them is rejected as missing. -/
theorem c2_lenient_omits_strict_only :
    ("monster_name" ∉ (activeFields false phantomItemSchema).map FieldSpec.name
      ∧ "name" ∉ (activeFields false summonCfgSchema).map FieldSpec.name)
  ∧ ("monster_name" ∈ (activeFields true phantomItemSchema).map FieldSpec.name
      ∧ "name" ∈ (activeFields true summonCfgSchema).map FieldSpec.name)
  ∧ (∀ (entries : List (String × Raw)) (r : List (String × Value)),
      decodeRecord false phantomItemSchema (.obj entries) = .ok r →
        "monster_name" ∉ r.map Prod.fst)
  ∧ (∀ (entries : List (String × Raw)) (r : List (String × Value)),
      decodeRecord false summonCfgSchema (.obj entries) = .ok r →
        "name" ∉ r.map Prod.fst)
  ∧ isOkE (decodeRecord false phantomItemSchema (.obj phantomItemRawMinimal)) = true
  ∧ decodeRecord false summonCfgSchema (.obj summonCfgRawMinimalEmpty)
      = .ok [("id", .vInt 1), ("blueprint_type", .vStr "b"), ("born_buff_id", .vList [])]
  ∧ decodeRecord true phantomItemSchema (.obj phantomItemRawMinimal)
      = .error (.missingField "MonsterName")
  ∧ decodeRecord true summonCfgSchema (.obj summonCfgRawMinimalEmpty)
      = .error (.missingField "Name") := by
  refine ⟨⟨by decide, by decide⟩, ⟨by decide, by decide⟩, ?_, ?_, rfl, rfl, rfl, rfl⟩
  · intro entries r h
    rw [decodeRecord_ok_names false phantomItemSchema entries r h]
    decide
  · intro entries r h
    rw [decodeRecord_ok_names false summonCfgSchema entries r h]
    decide

/-- C2 witness: the concrete minimal SummonCfgData record decodes leniently
to a record with no slot named name. -/
theorem c2_witness :
    "name" ∉ ([("id", Value.vInt 1), ("blueprint_type", Value.vStr "b"),
      ("born_buff_id", Value.vList [])].map Prod.fst) :=
  c2_lenient_omits_strict_only.2.2.2.1 summonCfgRawMinimalEmpty _ rfl

/-- C4: a successful decode requires the raw key of every active field among
the input entries (always fields are active in both modes, and no default is
substituted), and concrete records omitting the always fields ItemId, Id or
BlueprintType fail with the corresponding missing-field error in both
modes. -/
theorem c4_missing_always_field :
    (∀ (m : Bool) (s : Schema) (entries : List (String × Raw)) (r : List (String × Value)),
      decodeRecord m s (.obj entries) = .ok r →
        ∀ f ∈ activeFields m s, ∃ v, (rawKey f, v) ∈ entries)
  ∧ (∀ (m : Bool) (s : Schema) (f : FieldSpec), f ∈ s.fields → f.strictOnly = false →
      f ∈ activeFields m s)
  ∧ decodeRecord true phantomItemSchema (.obj phantomItemRawNoItemId)
      = .error (.missingField "ItemId")
  ∧ decodeRecord false phantomItemSchema (.obj phantomItemRawNoItemId)
      = .error (.missingField "ItemId")
  ∧ decodeRecord true summonCfgSchema (.obj summonCfgRawNoId)
      = .error (.missingField "Id")
  ∧ decodeRecord false summonCfgSchema (.obj summonCfgRawNoId)
      = .error (.missingField "Id")
  ∧ decodeRecord true summonCfgSchema (.obj summonCfgRawNoBlueprintType)
      = .error (.missingField "BlueprintType")
  ∧ decodeRecord false summonCfgSchema (.obj summonCfgRawNoBlueprintType)
      = .error (.missingField "BlueprintType") := by
  refine ⟨decodeRecord_ok_key_present, ?_, rfl, rfl, rfl, rfl, rfl, rfl⟩
  intro m s f hf hso
  cases m with
  | true => simpa [activeFields] using hf
  | false => simp [activeFields, List.mem_filter, hf, hso]

/-- C4 witness: the concrete successful lenient SummonCfgData decode supplies
the raw key Id. -/
theorem c4_witness : ∃ v, ("Id", v) ∈ summonCfgRawMinimalEmpty :=
  c4_missing_always_field.1 false summonCfgSchema summonCfgRawMinimalEmpty _ rfl
    ⟨"id", .prim .i32, false⟩ (by decide)

/-- C3 counterexample: in strict mode, a complete PhantomItemData record
whose MainProp sub-mapping carries the undeclared key Bogus still decodes
successfully, because the MainProp struct does not carry the
deny-unknown-fields attribute; the claim that strict mode rejects an
undeclared field inside the MainProp sub-mapping is therefore false. -/
theorem c3_counterexample :
    isOkE (decodeRecord true phantomItemSchema (.obj phantomItemRawMainPropExtra)) = true
  ∧ (subSpecs mainPropFields).find? (fun f => rawKey f == "Bogus") = none :=
  ⟨rfl, rfl⟩

/-- C3 amended: the main_prop field of PhantomItemData is declared with the
nested MainProp schema and decoded against it under the outer mode; a failure
inside the sub-mapping propagates as a failure of the outer field with the
nested path preserved (for example MainProp.RandGroupId); undeclared keys
inside the sub-mapping are ignored in both modes, because MainProp does not
carry the deny-unknown-fields attribute, so nested decoding does not depend
on the mode. -/
theorem c3_nested_mainprop :
    ((phantomItemSchema.fields.find? (fun f => f.name == "main_prop")).map FieldSpec.kind
      = some (.nested mainPropFields false))
  ∧ (∀ (strict : Bool) (path : String) (entries : List (String × Raw)) (e : Err),
      decodeValue strict path (.nested mainPropFields false) (.obj entries) = .error e →
        ∃ e₀, e = pushPath path e₀)
  ∧ (∀ (strict : Bool) (path : String) (entries : List (String × Raw)),
      decodeValue strict path (.nested mainPropFields false) (.obj entries)
        = decodeValue strict path (.nested mainPropFields false)
            (.obj (entries.filter (fun e =>
              ((subSpecs mainPropFields).find? (fun f => rawKey f == e.1)).isSome))))
  ∧ (∀ (path : String) (v : Raw),
      decodeValue true path (.nested mainPropFields false) v
        = decodeValue false path (.nested mainPropFields false) v)
  ∧ (∀ strict : Bool,
      decodeValue strict "MainProp" (.nested mainPropFields false)
        (.obj [("RandNum", .num 3)]) = .error (.missingField "MainProp.RandGroupId")) := by
  refine ⟨rfl, ?_, ?_, ?_, fun strict => by cases strict <;> rfl⟩
  · intro strict path entries e h
    simp only [decodeValue] at h
    cases hS : decodeSubRecord (strict && false) mainPropFields entries with
    | error e₀ =>
      rw [hS] at h
      exact ⟨e₀, by injection h with h'; exact h'.symm⟩
    | ok r => rw [hS] at h; exact absurd h (by simp)
  · intro strict path entries
    have hq : ∀ e : String × Raw,
        (((subSpecs mainPropFields).find? (fun f => rawKey f == e.1)).isSome) = false →
        (subSpecs mainPropFields).find? (fun f => rawKey f == e.1) = none := by
      intro e he
      cases hfe : (subSpecs mainPropFields).find? (fun f => rawKey f == e.1) with
      | none => rfl
      | some f => rw [hfe] at he; simp at he
    simp only [decodeValue, decodeSubRecord, Bool.and_false]
    rw [processWith_filter decodeBase (subSpecs mainPropFields) _ hq entries []]
  · intro path v
    cases v <;> rfl

/-- C3 witness: a type mismatch on RandGroupId inside the sub-mapping is
reported under the outer field path. -/
theorem c3_witness : ∃ e₀, Err.typeMismatch "MainProp.RandGroupId" = pushPath "MainProp" e₀ :=
  c3_nested_mainprop.2.1 true "MainProp"
    [("RandGroupId", .str "x"), ("RandNum", .num 3)] _ rfl

/-- C5: Zoom, Location and Rotator of PhantomItemData are fixed-arity float
tuples whose decoding succeeds only on raw lists of exactly 3 numeric
elements, while list fields such as born_buff_id of SummonCfgData accept any
length, preserving count and input order, with the empty list decoding to a
zero-length sequence rather than failing as missing. -/
theorem c5_tuple_arity_list_length :
    ((phantomItemSchema.fields.find? (fun f => f.name == "zoom")).map FieldSpec.kind
      = some .tuple3f32)
  ∧ ((phantomItemSchema.fields.find? (fun f => f.name == "location")).map FieldSpec.kind
      = some .tuple3f32)
  ∧ ((phantomItemSchema.fields.find? (fun f => f.name == "rotator")).map FieldSpec.kind
      = some .tuple3f32)
  ∧ ((summonCfgSchema.fields.find? (fun f => f.name == "born_buff_id")).map FieldSpec.kind
      = some (.listOf .i64))
  ∧ (∀ (path : String) (xs : List Raw) (v : Value),
      decodeBase path .tuple3f32 (.arr xs) = .ok v → xs.length = 3)
  ∧ (∀ (path : String) (xs : List Raw), xs.length ≠ 3 →
      decodeBase path .tuple3f32 (.arr xs) = .error (.typeMismatch path))
  ∧ (∀ (path : String) (ns : List Int), ns.length = 3 →
      decodeBase path .tuple3f32 (.arr (ns.map Raw.num)) = .ok (.vList (ns.map Value.vF32)))
  ∧ (∀ (path : String) (ns : List Int), (∀ n ∈ ns, i64Min ≤ n ∧ n ≤ i64Max) →
      decodeBase path (.listOf .i64) (.arr (ns.map Raw.num)) = .ok (.vList (ns.map Value.vInt)))
  ∧ decodeBase "BornBuffId" (.listOf .i64) (.arr []) = .ok (.vList [])
  ∧ decodeRecord false summonCfgSchema (.obj summonCfgRawFull)
      = .ok [("id", .vInt 1), ("blueprint_type", .vStr "b"),
          ("born_buff_id", .vList [.vInt 100, .vInt 200])]
  ∧ decodeRecord false summonCfgSchema (.obj summonCfgRawMinimalEmpty)
      = .ok [("id", .vInt 1), ("blueprint_type", .vStr "b"), ("born_buff_id", .vList [])]
  ∧ decodeRecord true phantomItemSchema (.obj phantomItemRawZoomTwo)
      = .error (.typeMismatch "Zoom")
  ∧ decodeRecord false phantomItemSchema (.obj phantomItemRawZoomTwo)
      = .error (.typeMismatch "Zoom") := by
  refine ⟨rfl, rfl, rfl, rfl, ?_, ?_, ?_, ?_, rfl, rfl, rfl, rfl, rfl⟩
  · intro path xs v h
    by_cases hlen : xs.length = 3
    · exact hlen
    · simp only [decodeBase] at h
      rw [if_neg hlen] at h
      exact absurd h (by simp)
  · intro path xs hlen
    simp only [decodeBase]
    rw [if_neg hlen]
  · intro path ns h3
    simp only [decodeBase, List.length_map]
    rw [if_pos h3, decodePrims_f32_map]
  · intro path ns h
    simp only [decodeBase]
    rw [decodePrims_i64_map path ns h]

/-- C5 witness: a two-element buff list decodes to a two-element sequence in
input order. -/
theorem c5_witness :
    decodeBase "BornBuffId" (.listOf .i64) (.arr [.num 100, .num 200])
      = .ok (.vList [.vInt 100, .vInt 200]) :=
  c5_tuple_arity_list_length.2.2.2.2.2.2.2.1 "BornBuffId" [100, 200] (by decide)

/-- C6: the raw key of every field of every schema is computed by the single
deterministic PascalCase rendering of its snake_case name, with no per-table
exception, and the mapping is bidirectional: rendering a declared field name
and mapping it back yields the original name, and conversely for the raw
keys. -/
theorem c6_name_mapping :
    (∀ f : FieldSpec, rawKey f = toPascal f.name)
  ∧ allFieldNames.all (fun n => toSnake (toPascal n) == n) = true
  ∧ allFieldNames.all (fun n => toPascal (toSnake (toPascal n)) == toPascal n) = true
  ∧ phantomCustomizeItemSchema.fields.map rawKey = ["ItemId", "PhantomId", "SkinItemId"]
  ∧ summonCfgSchema.fields.map rawKey = ["Id", "BlueprintType", "Name", "BornBuffId"]
  ∧ (subSpecs mainPropFields).map rawKey = ["RandGroupId", "RandNum"]
  ∧ phantomItemSchema.fields.map rawKey
      = ["ItemId", "MonsterId", "MonsterName", "ElementType", "MainProp", "LevelUpGroupId",
         "SkillId", "CalabashBuffs", "Rarity", "MeshId", "Zoom", "Location", "Rotator",
         "StandAnim", "TypeDescription", "AttributesDescription", "Icon", "IconMiddle",
         "IconSmall", "Mesh", "QualityId", "MaxCapcity", "ItemAccess", "ObtainedShow",
         "ObtainedShowDescription", "NumLimit", "ShowInBag", "SortIndex", "SkillIcon",
         "Destructible", "RedDotDisableRule", "FetterGroup", "PhantomType",
         "ParentMonsterId"] :=
  ⟨fun _ => rfl, by decide, by decide, rfl, rfl, rfl, rfl⟩

/-- C6 witness: the misspelled field keeps the mechanical mapping. -/
theorem c6_witness : rawKey ⟨"max_capcity", .prim .i32, false⟩ = toPascal "max_capcity" :=
  c6_name_mapping.1 ⟨"max_capcity", .prim .i32, false⟩

/-- C7: a text value in a numeric slot, even a numeric-looking one, is a type
mismatch in both modes; value decoding is independent of the mode for every
kind occurring in the schemas (all of which are mode-free), so the modes
differ only in unknown-field tolerance and strict-only omission, never in
value coercion. -/
theorem c7_no_coercion :
    (∀ (path s : String), decodePrim path .i32 (.str s) = .error (.typeMismatch path))
  ∧ (∀ (path s : String), decodePrim path .i64 (.str s) = .error (.typeMismatch path))
  ∧ ((phantomItemSchema.fields ++ phantomCustomizeItemSchema.fields
      ++ summonCfgSchema.fields).all (fun f => kindModeFree f.kind) = true)
  ∧ (∀ k : Kind, kindModeFree k = true → ∀ (path : String) (v : Raw),
      decodeValue true path k v = decodeValue false path k v)
  ∧ decodeRecord true phantomItemSchema (.obj phantomItemRawItemIdText)
      = .error (.typeMismatch "ItemId")
  ∧ decodeRecord false phantomItemSchema (.obj phantomItemRawItemIdText)
      = .error (.typeMismatch "ItemId")
  ∧ decodeRecord true phantomItemSchema (.obj phantomItemRawRarityText)
      = .error (.typeMismatch "Rarity")
  ∧ decodeRecord false phantomItemSchema (.obj phantomItemRawRarityText)
      = .error (.typeMismatch "Rarity") := by
  refine ⟨fun path s => rfl, fun path s => rfl, by decide, ?_, rfl, rfl, rfl, rfl⟩
  intro k hk path v
  cases k with
  | prim p => rfl
  | listOf p => rfl
  | tuple3f32 => rfl
  | nested sub deny =>
    cases deny with
    | false => cases v <;> rfl
    | true => simp [kindModeFree] at hk

/-- C7 witness: the numeric-looking text value in the i32 slot of ItemId is
rejected, and value decoding at a mode-free kind agrees across modes. -/
theorem c7_witness :
    decodePrim "ItemId" .i32 (.str "42") = .error (.typeMismatch "ItemId")
  ∧ decodeValue true "MainProp" (.nested mainPropFields false) (.num 1)
      = decodeValue false "MainProp" (.nested mainPropFields false) (.num 1) :=
  ⟨c7_no_coercion.1 "ItemId" "42",
    c7_no_coercion.2.2.2.1 (.nested mainPropFields false) (by decide) "MainProp" (.num 1)⟩

/-- C8: id of SummonCfgData and item_id of PhantomItemData are declared as
signed 32-bit integers, decoding a numeric value exactly when it lies in the
i32 range and rejecting values outside it, while born_buff_id of
SummonCfgData is a list of signed 64-bit integers whose elements accept the
full i64 range, including values exceeding 32 bits. -/
theorem c8_identifier_ranges :
    ((summonCfgSchema.fields.find? (fun f => f.name == "id")).map FieldSpec.kind
      = some (.prim .i32))
  ∧ ((phantomItemSchema.fields.find? (fun f => f.name == "item_id")).map FieldSpec.kind
      = some (.prim .i32))
  ∧ ((summonCfgSchema.fields.find? (fun f => f.name == "born_buff_id")).map FieldSpec.kind
      = some (.listOf .i64))
  ∧ (∀ (path : String) (n : Int),
      decodePrim path .i32 (.num n) = .ok (.vInt n) ↔ i32Min ≤ n ∧ n ≤ i32Max)
  ∧ (∀ (path : String) (n : Int),
      decodePrim path .i64 (.num n) = .ok (.vInt n) ↔ i64Min ≤ n ∧ n ≤ i64Max)
  ∧ (∀ (path : String) (n : Int), n < i32Min ∨ i32Max < n →
      decodePrim path .i32 (.num n) = .error (.typeMismatch path))
  ∧ (∀ (path : String) (ns : List Int), (∀ n ∈ ns, i64Min ≤ n ∧ n ≤ i64Max) →
      decodeBase path (.listOf .i64) (.arr (ns.map Raw.num)) = .ok (.vList (ns.map Value.vInt)))
  ∧ decodeBase "BornBuffId" (.listOf .i64) (.arr [.num (2 ^ 40)])
      = .ok (.vList [.vInt (2 ^ 40)])
  ∧ decodePrim "Id" .i32 (.num (2 ^ 40)) = .error (.typeMismatch "Id") := by
  refine ⟨rfl, rfl, rfl, ?_, ?_, ?_, ?_, rfl, rfl⟩
  · intro path n
    by_cases h : i32Min ≤ n ∧ n ≤ i32Max
    · simp [decodePrim, h]
    · simp [decodePrim, h]
  · intro path n
    by_cases h : i64Min ≤ n ∧ n ≤ i64Max
    · simp [decodePrim, h]
    · simp [decodePrim, h]
  · intro path n h
    have hn : ¬(i32Min ≤ n ∧ n ≤ i32Max) := by
      rcases h with h | h
      · exact fun hc => absurd hc.1 (not_le.mpr h)
      · exact fun hc => absurd hc.2 (not_le.mpr h)
    simp [decodePrim, hn]
  · intro path ns h
    simp only [decodeBase]
    rw [decodePrims_i64_map path ns h]

/-- C8 witness: the value 2 to the 31st is out of the i32 range. -/
theorem c8_witness :
    decodePrim "Id" .i32 (.num (2 ^ 31)) = .error (.typeMismatch "Id") :=
  c8_identifier_ranges.2.2.2.2.2.1 "Id" (2 ^ 31) (Or.inr (by decide))

/-- C9 counterexample: the record supplying the correctly spelled key
MaxCapacity is rejected in strict mode with an unknown-field error on that
key, not with a missing-field error on MaxCapcity: the unknown key is
reported during the entry scan, before the missing-field check runs. -/
theorem c9_counterexample :
    decodeRecord true phantomItemSchema (.obj phantomItemRawMaxCapacity)
      = .error (.unknownField "MaxCapacity")
  ∧ Err.unknownField "MaxCapacity" ≠ Err.missingField "MaxCapcity" :=
  ⟨rfl, by decide⟩

/-- C9 amended: the raw key accepted for max_capcity is exactly MaxCapcity,
mechanically derived from the misspelled field name; the record keyed
MaxCapcity decodes in both modes, while the record keyed MaxCapacity fails in
both modes, with a missing-field error on MaxCapcity in lenient mode and with
an unknown-field error on MaxCapacity in strict mode (the unknown key is
reported before the missing-field check). -/
theorem c9_max_capcity_key :
    ((phantomItemSchema.fields.find? (fun f => f.name == "max_capcity")).map rawKey
      = some "MaxCapcity")
  ∧ toPascal "max_capcity" = "MaxCapcity"
  ∧ isOkE (decodeRecord true phantomItemSchema (.obj phantomItemRawFull)) = true
  ∧ isOkE (decodeRecord false phantomItemSchema (.obj phantomItemRawFull)) = true
  ∧ decodeRecord false phantomItemSchema (.obj phantomItemRawMaxCapacity)
      = .error (.missingField "MaxCapcity")
  ∧ decodeRecord true phantomItemSchema (.obj phantomItemRawMaxCapacity)
      = .error (.unknownField "MaxCapacity") :=
  ⟨rfl, rfl, rfl, rfl, rfl, rfl⟩

/-- C10: PhantomCustomizeItemData declares no strict-only field, so its
active field list is the same in both profiles, both modes demand the raw
keys ItemId, PhantomId and SkinItemId, the two modes agree on every record
whose keys are all declared, and a record that decodes in strict mode decodes
to the same record in lenient mode: the modes can differ only on records
carrying undeclared fields. -/
theorem c10_customize_profiles :
    phantomCustomizeItemSchema.fields.all (fun f => !f.strictOnly) = true
  ∧ activeFields true phantomCustomizeItemSchema = activeFields false phantomCustomizeItemSchema
  ∧ phantomCustomizeItemSchema.fields.map rawKey = ["ItemId", "PhantomId", "SkinItemId"]
  ∧ (∀ (m : Bool) (entries : List (String × Raw)) (r : List (String × Value)),
      decodeRecord m phantomCustomizeItemSchema (.obj entries) = .ok r →
        ∀ f ∈ activeFields m phantomCustomizeItemSchema, ∃ v, (rawKey f, v) ∈ entries)
  ∧ (∀ entries : List (String × Raw),
      (∀ e ∈ entries, ((activeFields true phantomCustomizeItemSchema).find?
          (fun f => rawKey f == e.1)).isSome = true) →
      decodeRecord true phantomCustomizeItemSchema (.obj entries)
        = decodeRecord false phantomCustomizeItemSchema (.obj entries))
  ∧ (∀ (entries : List (String × Raw)) (r : List (String × Value)),
      decodeRecord true phantomCustomizeItemSchema (.obj entries) = .ok r →
        decodeRecord false phantomCustomizeItemSchema (.obj entries) = .ok r) := by
  have hA : activeFields true phantomCustomizeItemSchema
      = activeFields false phantomCustomizeItemSchema := rfl
  have hdec : ∀ f ∈ activeFields true phantomCustomizeItemSchema,
      ∀ (p : String) (v : Raw), decodeValue true p f.kind v = decodeValue false p f.kind v := by
    intro f hf p v
    have : f = ⟨"item_id", .prim .i32, false⟩ ∨ f = ⟨"phantom_id", .prim .i32, false⟩
        ∨ f = ⟨"skin_item_id", .prim .i32, false⟩ := by
      simpa [activeFields, phantomCustomizeItemSchema] using hf
    rcases this with rfl | rfl | rfl <;> rfl
  have hmode : ∀ entries : List (String × Raw),
      (∀ e ∈ entries, ((activeFields true phantomCustomizeItemSchema).find?
          (fun f => rawKey f == e.1)).isSome = true) →
      decodeRecord true phantomCustomizeItemSchema (.obj entries)
        = decodeRecord false phantomCustomizeItemSchema (.obj entries) := by
    intro entries hdecl
    have hd : phantomCustomizeItemSchema.denyUnknownWhenStrict = true := rfl
    simp only [decodeRecord, decodeRecordWith, hd, Bool.and_self, Bool.false_and]
    rw [← hA]
    rw [processWith_congr (decodeValue true) (decodeValue false) true false
      (activeFields true phantomCustomizeItemSchema) hdec entries [] hdecl]
  refine ⟨rfl, hA, rfl, fun m => decodeRecord_ok_key_present m phantomCustomizeItemSchema,
    hmode, ?_⟩
  intro entries r h
  have hdecl : ∀ e ∈ entries, ((activeFields true phantomCustomizeItemSchema).find?
      (fun f => rawKey f == e.1)).isSome = true := by
    have h' := h
    have hd : phantomCustomizeItemSchema.denyUnknownWhenStrict = true := rfl
    simp only [decodeRecord, decodeRecordWith, hd, Bool.and_self] at h'
    cases hP : processWith (decodeValue true) true
        (activeFields true phantomCustomizeItemSchema) entries [] with
    | error e => rw [hP] at h'; exact absurd h' (by simp)
    | ok acc =>
      exact processWith_ok_declared (decodeValue true)
        (activeFields true phantomCustomizeItemSchema) entries [] acc hP
  rw [← hmode entries hdecl]
  exact h

/-- C10 witness: a fully declared record decodes identically in both
modes. -/
theorem c10_witness :
    decodeRecord false phantomCustomizeItemSchema (.obj customizeRawFull)
      = .ok [("item_id", .vInt 1), ("phantom_id", .vInt 2), ("skin_item_id", .vInt 3)] :=
  c10_customize_profiles.2.2.2.2.2 customizeRawFull
    [("item_id", .vInt 1), ("phantom_id", .vInt 2), ("skin_item_id", .vInt 3)] rfl

end WW
